import Mathlib

/-!
Verification of the DiSPA timeline compiler (Rust sources under src/).

Strings from the Rust source are modelled as lists of characters
(`Str := List Char`); `u32` values are modelled as `Nat` (parsing enforces
the `< 2^32` bound where the source's `u32` parse would overflow);
fallible Rust code returns `Except`.  Rust panics are modelled by an outer
`Option` (`none` = panic) where a claim depends on them.
-/

namespace DiSPA

abbrev Str := List Char

/-- Decimal rendering of a `Nat`, as the character list of `Nat.repr`
(matches Rust's `Display` for unsigned integers). -/
def natStr (n : Nat) : Str := (Nat.repr n).data

/-! ## Data model (src/objects.rs) -/

/-- objects.rs `NumberType` (also the shape of file_reader.rs `NumberType`):
`Delay` (prefix `@`, file_reader discriminator `t`) or `Duration`
(prefix `%`, discriminator `d`). -/
inductive NumberType where
  | Delay
  | Duration
deriving DecidableEq, Repr

/-- objects.rs `Number { value: u32, number_type: NumberType }`. -/
structure Number where
  value : Nat
  number_type : NumberType
deriving DecidableEq, Repr

/-- objects.rs `NumberSet { delay: u32, duration: u32 }`. -/
structure NumberSet where
  delay : Nat
  duration : Nat
deriving DecidableEq, Repr

/-- errors.rs `CompileErrorType` (payloads that carry foreign error values,
such as `ParseIntError`, are dropped; positions are tracked separately by
`CompileError` in the source and are orthogonal to the claims). -/
inductive ErrorType where
  | InvalidKeyword (kw : Str)
  | LineEmpty (line : Str)
  | TooManyCharacters (stmt : Str) (expected found : Nat)
  | InvalidCharacters (stmt : Str)
  | InvalidNumberPrefixMark (c : Char)
  | InvalidInt (num : Str)
  | StringSectionEmpty (s : Str)
  | IncorrectArgumentCount (stmt : Str) (expected found : Nat)
  | IncorrectNumberType (n : Number) (expected : NumberType)
  | DuplicateNumberType (t : NumberType)
  | IncorrectSeparator (stmt : Str) (expected : Char)
  | InvalidCoordinate (c : Str)
deriving DecidableEq, Repr

/-- errors.rs `GenericError` (the `thiserror` enum in main's crate). -/
inductive GenericError where
  | InvalidPath (s : Str)
  | BlockQueueEmpty
  | FileNotExist (s : Str)
  | Collection (msg : Str)
deriving DecidableEq, Repr

/-- objects.rs `NumberSet::new`. -/
def NumberSet.new (delay duration : Nat) : NumberSet := ⟨delay, duration⟩

/-- objects.rs `NumberSet::new_unordered` (lines 305-317): the two numbers
must have distinct types; the delay field comes from the `Delay`-typed
number and the duration field from the `Duration`-typed one. -/
def NumberSet.new_unordered (value_1 value_2 : Number) : Except ErrorType NumberSet :=
  match value_1.number_type, value_2.number_type with
  | .Delay, .Duration => .ok ⟨value_1.value, value_2.value⟩
  | .Duration, .Delay => .ok ⟨value_2.value, value_1.value⟩
  | _, _ => .error (.DuplicateNumberType value_1.number_type)

/-- objects.rs `NumberSet::new_with_default` (lines 319-324). -/
def NumberSet.new_with_default (number : Number) (default : NumberSet) : NumberSet :=
  match number.number_type with
  | .Delay => NumberSet.new number.value default.duration
  | .Duration => NumberSet.new default.delay number.value

/-- statements.rs lines 163-171: resolution of the `NumberSet` when the
first word is a prefixed number and the second word is an unprefixed
keyword (the inlined counterpart of `NumberSet::new_with_default`). -/
def resolveSecondKeyword (first_number : Number) (current_numbers : NumberSet) : NumberSet :=
  match first_number.number_type with
  | .Delay => NumberSet.new first_number.value current_numbers.duration
  | .Duration => NumberSet.new current_numbers.delay first_number.value

/-- file_reader.rs `Block { delay: u32, duration: u32 }` (default `(0,0)`). -/
structure Block where
  delay : Nat
  duration : Nat
deriving DecidableEq, Repr

/-- file_reader.rs `parse_block_definition`, lines 223-239: the logic on the
already-parsed list of numbers (at most two numbers; when two are given
they must have distinct types; the numbers are folded over the previous
block's `(delay, duration)` pair, each overriding its own field). -/
def blockDefNumbersResolve (numbers : List Number) (previous_block : Block) :
    Except Str (Nat × Nat) :=
  if numbers.length > 2 then
    .error "Too many numbers in block definition.".data
  else
    match numbers.head? with
    | none => .error "Block definition is empty.".data
    | some first =>
      if (numbers.get? 1).elim false (fun second => second.number_type == first.number_type) then
        .error "Block definition contains two numbers of the same type.".data
      else
        .ok (numbers.foldl
          (fun (p : Nat × Nat) number =>
            match number.number_type with
            | .Delay => (number.value, p.2)
            | .Duration => (p.1, number.value))
          (previous_block.delay, previous_block.duration))

/-! ## Claim C3 -/

/-- C3: with an inherited NumberSet and a statement whose first word is a
prefixed Number and whose second word is an unprefixed keyword, the
resolved NumberSet equals the inherited set with exactly the field
matching the Number's type replaced by the Number's value, the other
field unchanged; and the inline resolution in `Statement::parse_from_file`
agrees with `NumberSet::new_with_default`. -/
theorem claim_C3_partial_override (n : Number) (cur : NumberSet) :
    resolveSecondKeyword n cur = NumberSet.new_with_default n cur ∧
    (resolveSecondKeyword n cur).delay =
      (if n.number_type = .Delay then n.value else cur.delay) ∧
    (resolveSecondKeyword n cur).duration =
      (if n.number_type = .Duration then n.value else cur.duration) := by
  cases h : n.number_type <;>
    simp [resolveSecondKeyword, NumberSet.new_with_default, NumberSet.new, h]

/-! ## Claim C4 -/

/-- C4: constructing the resolved NumberSet from two explicitly given
timing Numbers (statement form `NumberSet::new_unordered`, block form
`parse_block_definition`) fails with the duplicate-number-type error when
both Numbers have the same type; when the types differ it succeeds with
the delay taken from the `Delay`-typed Number and the duration from the
`Duration`-typed Number, independent of order (and, for the block form,
of the inherited block). -/
theorem claim_C4_duplicate_number_type (n1 n2 : Number) (prev : Block) :
    (n1.number_type = n2.number_type →
      NumberSet.new_unordered n1 n2 = .error (.DuplicateNumberType n1.number_type) ∧
      blockDefNumbersResolve [n1, n2] prev =
        .error "Block definition contains two numbers of the same type.".data) ∧
    (n1.number_type ≠ n2.number_type →
      NumberSet.new_unordered n1 n2 =
        .ok ⟨if n1.number_type = .Delay then n1.value else n2.value,
             if n1.number_type = .Duration then n1.value else n2.value⟩ ∧
      NumberSet.new_unordered n1 n2 = NumberSet.new_unordered n2 n1 ∧
      blockDefNumbersResolve [n1, n2] prev =
        .ok (if n1.number_type = .Delay then n1.value else n2.value,
             if n1.number_type = .Duration then n1.value else n2.value) ∧
      blockDefNumbersResolve [n1, n2] prev = blockDefNumbersResolve [n2, n1] prev) := by
  cases h1 : n1.number_type <;> cases h2 : n2.number_type <;>
    simp [NumberSet.new_unordered, blockDefNumbersResolve, h1, h2]

/-- C4 witness: concrete duplicate pair fails, concrete mixed pair succeeds
order-independently. -/
theorem claim_C4_duplicate_number_type_witness :
    (NumberSet.new_unordered ⟨3, .Delay⟩ ⟨7, .Delay⟩ =
        .error (.DuplicateNumberType .Delay) ∧
      blockDefNumbersResolve [⟨3, .Delay⟩, ⟨7, .Delay⟩] ⟨0, 0⟩ =
        .error "Block definition contains two numbers of the same type.".data) ∧
    (NumberSet.new_unordered ⟨3, .Duration⟩ ⟨7, .Delay⟩ = .ok ⟨7, 3⟩ ∧
      NumberSet.new_unordered ⟨3, .Duration⟩ ⟨7, .Delay⟩ =
        NumberSet.new_unordered ⟨7, .Delay⟩ ⟨3, .Duration⟩) := by
  refine ⟨(claim_C4_duplicate_number_type ⟨3, .Delay⟩ ⟨7, .Delay⟩ ⟨0, 0⟩).1 rfl, ?_, ?_⟩
  · exact ((claim_C4_duplicate_number_type ⟨3, .Duration⟩ ⟨7, .Delay⟩ ⟨0, 0⟩).2
      (by decide)).1
  · exact ((claim_C4_duplicate_number_type ⟨3, .Duration⟩ ⟨7, .Delay⟩ ⟨0, 0⟩).2
      (by decide)).2.1

/-! ## Claim C5: relative coordinates

Coordinate values are modelled exactly over `ℚ`; the Rust code parses
`f32`, and `parseFloatQ` models the plain decimal fragment of that
grammar (optional sign, digits, optional fractional part) with exact
rational semantics.  The claims exercise only small decimal literals,
where `f32` is exact, so the string-level resolution logic — the part the
claim is about — is modelled faithfully. -/

/-- Rust `str::split_once(sep)`: split at the first occurrence of `sep`. -/
def splitOnceChar (sep : Char) : Str → Option (Str × Str)
  | [] => none
  | c :: cs =>
    if c = sep then some ([], cs)
    else (splitOnceChar sep cs).map (fun p => (c :: p.1, p.2))

/-- Value of a digit string (decimal). -/
def natVal (s : Str) : Nat := s.foldl (fun a c => 10 * a + (c.toNat - 48)) 0

/-- Unsigned decimal literal: `digits`, `digits.digits`, `digits.` or
`.digits` (at least one digit overall), as accepted by Rust's `f32`
parser, valued exactly in `ℚ`. -/
def parseUnsignedQ (s : Str) : Option ℚ :=
  match splitOnceChar '.' s with
  | none => if s ≠ [] ∧ s.all Char.isDigit then some (natVal s) else none
  | some (ip, fp) =>
    if (ip ≠ [] ∨ fp ≠ []) ∧ ip.all Char.isDigit ∧ fp.all Char.isDigit then
      some ((natVal ip : ℚ) + (natVal fp : ℚ) / (10 : ℚ) ^ fp.length)
    else none

/-- Optionally signed decimal literal (Rust `f32` parse accepts a leading
`+` or `-`). -/
def parseFloatQ (s : Str) : Option ℚ :=
  match s with
  | [] => parseUnsignedQ s
  | c :: rest =>
    if c = '+' then parseUnsignedQ rest
    else if c = '-' then (parseUnsignedQ rest).map (fun q => -q)
    else parseUnsignedQ s

/-- Rust `str::replace`: replace every non-overlapping occurrence of `pat`
left to right.  Structured with explicit fuel (initialised to the string
length, which bounds the number of steps) so that it computes by `rfl`. -/
def replaceAllFuel (pat rep : Str) : Nat → Str → Str
  | _, [] => []
  | 0, s => s
  | fuel + 1, c :: cs =>
    if pat ≠ [] ∧ pat.isPrefixOf (c :: cs) then
      rep ++ replaceAllFuel pat rep fuel (List.drop (pat.length - 1) cs)
    else
      c :: replaceAllFuel pat rep fuel cs

/-- Rust `str::replace` (see `replaceAllFuel`). -/
def replaceAll (pat rep s : Str) : Str := replaceAllFuel pat rep s.length s

/-- statements.rs `Statement::parse_coordinate` (lines 397-426); the same
logic appears as file_reader.rs `parse_coordinate` (lines 366-388): a
token starting with `~` is rewritten by `replace("~-", "-0")` then
`replace('~', "0")`, parsed, and added to the current value; other tokens
parse directly. -/
def parse_coordinate (coordinate : Str) (current : ℚ) : Except ErrorType ℚ :=
  if coordinate.head? = some '~' then
    match parseFloatQ (replaceAll "~".data "0".data (replaceAll "~-".data "-0".data coordinate)) with
    | some v => .ok (v + current)
    | none => .error (.InvalidCoordinate coordinate)
  else
    match parseFloatQ coordinate with
    | some v => .ok v
    | none => .error (.InvalidCoordinate coordinate)

theorem splitOnceChar_eq_some {sep : Char} :
    ∀ {s a b : Str}, splitOnceChar sep s = some (a, b) → s = a ++ sep :: b ∧ sep ∉ a := by
  intro s
  induction s with
  | nil => intro a b h; simp [splitOnceChar] at h
  | cons c cs ih =>
    intro a b h
    by_cases hc : c = sep
    · rw [splitOnceChar, if_pos hc] at h
      have h2 := Option.some.inj h
      have ha : ([] : Str) = a := congrArg Prod.fst h2
      have hb : cs = b := congrArg Prod.snd h2
      subst hc
      rw [← ha, ← hb]
      simp
    · rw [splitOnceChar, if_neg hc] at h
      cases hsp : splitOnceChar sep cs with
      | none => rw [hsp] at h; simp at h
      | some p =>
        obtain ⟨a2, b2⟩ := p
        rw [hsp] at h
        simp only [Option.map_some'] at h
        have h2 := Option.some.inj h
        have ha : c :: a2 = a := congrArg Prod.fst h2
        have hb : b2 = b := congrArg Prod.snd h2
        obtain ⟨h1, hnot⟩ := ih hsp
        constructor
        · rw [← ha, ← hb, h1]; simp
        · rw [← ha]
          intro hmem
          rcases List.mem_cons.mp hmem with h3 | h3
          · exact hc h3.symm
          · exact hnot h3

theorem natVal_cons_zero (x : Str) : natVal ('0' :: x) = natVal x := rfl

theorem parseUnsignedQ_of_split_none {s : Str} (h : splitOnceChar '.' s = none) :
    parseUnsignedQ s =
      if s ≠ [] ∧ s.all Char.isDigit then some ((natVal s : ℚ)) else none := by
  unfold parseUnsignedQ
  rw [h]

theorem parseUnsignedQ_of_split_some {s ip fp : Str}
    (h : splitOnceChar '.' s = some (ip, fp)) :
    parseUnsignedQ s =
      if (ip ≠ [] ∨ fp ≠ []) ∧ ip.all Char.isDigit ∧ fp.all Char.isDigit then
        some ((natVal ip : ℚ) + (natVal fp : ℚ) / (10 : ℚ) ^ fp.length)
      else none := by
  unfold parseUnsignedQ
  rw [h]

theorem parseUnsignedQ_zero_cons {x : Str} {u : ℚ} (h : parseUnsignedQ x = some u) :
    parseUnsignedQ ('0' :: x) = some u := by
  cases hsp : splitOnceChar '.' x with
  | none =>
    rw [parseUnsignedQ_of_split_none hsp] at h
    split at h
    · rename_i hcond
      have hsp0 : splitOnceChar '.' ('0' :: x) = none := by
        simp [splitOnceChar, hsp]
      rw [parseUnsignedQ_of_split_none hsp0]
      rw [if_pos ⟨by simp, by simp [hcond.2, show ('0' : Char).isDigit = true by decide]⟩]
      rw [show natVal ('0' :: x) = natVal x from rfl]
      exact h
    · exact absurd h (by simp)
  | some p =>
    obtain ⟨ip, fp⟩ := p
    rw [parseUnsignedQ_of_split_some hsp] at h
    split at h
    · rename_i hcond
      have hsp0 : splitOnceChar '.' ('0' :: x) = some ('0' :: ip, fp) := by
        simp [splitOnceChar, hsp]
      rw [parseUnsignedQ_of_split_some hsp0]
      rw [if_pos ⟨Or.inl (by simp),
            by simp [hcond.2.1, show ('0' : Char).isDigit = true by decide],
            hcond.2.2⟩]
      rw [show natVal ('0' :: ip) = natVal ip from rfl]
      exact h
    · exact absurd h (by simp)

theorem parseUnsignedQ_chars {x : Str} {u : ℚ} (h : parseUnsignedQ x = some u) :
    ∀ c ∈ x, c.isDigit = true ∨ c = '.' := by
  cases hsp : splitOnceChar '.' x with
  | none =>
    rw [parseUnsignedQ_of_split_none hsp] at h
    split at h
    · rename_i hcond
      intro c hc
      exact Or.inl (List.all_eq_true.mp hcond.2 c hc)
    · exact absurd h (by simp)
  | some p =>
    obtain ⟨ip, fp⟩ := p
    rw [parseUnsignedQ_of_split_some hsp] at h
    split at h
    · rename_i hcond
      obtain ⟨hx, -⟩ := splitOnceChar_eq_some hsp
      intro c hc
      rw [hx] at hc
      rcases List.mem_append.mp hc with hin | hin
      · exact Or.inl (List.all_eq_true.mp hcond.2.1 c hin)
      · rcases List.mem_cons.mp hin with hdot | hin
        · exact Or.inr hdot
        · exact Or.inl (List.all_eq_true.mp hcond.2.2 c hin)
    · exact absurd h (by simp)

theorem replaceAllFuel_no_tilde {p rep : Str} :
    ∀ (fuel : Nat) (s : Str), '~' ∉ s → replaceAllFuel ('~' :: p) rep fuel s = s := by
  intro fuel
  induction fuel with
  | zero => intro s _; cases s <;> rfl
  | succ n ih =>
    intro s hs
    cases s with
    | nil => rfl
    | cons c cs =>
      have hc : c ≠ '~' := fun h => hs (h ▸ List.mem_cons_self c cs)
      have hno : ¬ (('~' :: p) ≠ [] ∧ ('~' :: p).isPrefixOf (c :: cs)) := by
        rintro ⟨-, hpre⟩
        rw [List.isPrefixOf_cons₂] at hpre
        have h2 := (Bool.and_eq_true _ _).mp hpre
        exact hc (beq_iff_eq.mp h2.1).symm
      rw [replaceAllFuel, if_neg hno]
      rw [ih cs (fun h => hs (List.mem_cons_of_mem c h))]

theorem replaceAllFuel_succ_cons (pat rep : Str) (c : Char) (cs : Str) (fuel : Nat) :
    replaceAllFuel pat rep (fuel + 1) (c :: cs) =
      if pat ≠ [] ∧ pat.isPrefixOf (c :: cs) then
        rep ++ replaceAllFuel pat rep fuel (List.drop (pat.length - 1) cs)
      else c :: replaceAllFuel pat rep fuel cs := rfl

/-- Core of the amended C5: a `~`-token whose remainder is a parseable
(non-`+`-signed) literal resolves to that value plus the current one. -/
theorem tilde_resolves {r : Str} {v : ℚ} (current : ℚ)
    (hplus : r.head? ≠ some '+') (hp : parseFloatQ r = some v) :
    parse_coordinate ('~' :: r) current = .ok (v + current) := by
  cases r with
  | nil => simp [parseFloatQ, parseUnsignedQ, splitOnceChar] at hp
  | cons c x =>
    have hplus2 : c ≠ '+' := by
      intro h
      exact hplus (by simp [h])
    by_cases hminus : c = '-'
    · subst hminus
      have hp2 : (parseUnsignedQ x).map (fun q => -q) = some v := by
        simpa [parseFloatQ] using hp
      obtain ⟨u, hu, hv⟩ := Option.map_eq_some'.mp hp2
      have hux : '~' ∉ x := by
        intro hmem
        rcases parseUnsignedQ_chars hu '~' hmem with h1 | h1 <;> simp at h1
      have hrep1 :
          replaceAll "~-".data "-0".data ('~' :: '-' :: x) = '-' :: '0' :: x := by
        show replaceAllFuel ['~', '-'] ['-', '0'] (x.length + 2) ('~' :: '-' :: x) = _
        rw [replaceAllFuel_succ_cons,
          if_pos ⟨by simp, by simp [List.isPrefixOf]⟩]
        show ['-', '0'] ++
          replaceAllFuel ['~', '-'] ['-', '0'] (x.length + 1) (List.drop 1 ('-' :: x)) = _
        rw [List.drop_one, List.tail_cons, replaceAllFuel_no_tilde _ _ hux]
        rfl
      have hnt2 : '~' ∉ ('-' :: '0' :: x) := by
        intro hmem
        rcases List.mem_cons.mp hmem with h1 | h1
        · simp at h1
        rcases List.mem_cons.mp h1 with h2 | h2
        · simp at h2
        · exact hux h2
      have hrep2 :
          replaceAll "~".data "0".data ('-' :: '0' :: x) = '-' :: '0' :: x := by
        show replaceAllFuel ['~'] ['0'] (x.length + 2) ('-' :: '0' :: x) = _
        exact replaceAllFuel_no_tilde _ _ hnt2
      have hfinal :
          parseFloatQ (replaceAll "~".data "0".data
            (replaceAll "~-".data "-0".data ('~' :: '-' :: x))) = some v := by
        rw [hrep1, hrep2]
        rw [show parseFloatQ ('-' :: '0' :: x) =
            (parseUnsignedQ ('0' :: x)).map (fun q => -q) by simp [parseFloatQ]]
        rw [parseUnsignedQ_zero_cons hu]
        simp [hv]
      simp [parse_coordinate, hfinal]
    · have hpu : parseUnsignedQ (c :: x) = some v := by
        simpa [parseFloatQ, hplus2, hminus] using hp
      have hnt : '~' ∉ (c :: x) := by
        intro hmem
        rcases parseUnsignedQ_chars hpu '~' hmem with h1 | h1 <;> simp at h1
      have hrep1 :
          replaceAll "~-".data "-0".data ('~' :: c :: x) = '~' :: c :: x := by
        show replaceAllFuel ['~', '-'] ['-', '0'] (x.length + 2) ('~' :: c :: x) = _
        rw [replaceAllFuel_succ_cons]
        rw [if_neg (by
          rintro ⟨-, hpre⟩
          rw [List.isPrefixOf_cons₂] at hpre
          have h2 := (Bool.and_eq_true _ _).mp hpre
          rw [List.isPrefixOf_cons₂] at h2
          have h3 := (Bool.and_eq_true _ _).mp h2.2
          exact hminus (beq_iff_eq.mp h3.1).symm)]
        rw [replaceAllFuel_no_tilde _ _ hnt]
      have hrep2 :
          replaceAll "~".data "0".data ('~' :: c :: x) = '0' :: c :: x := by
        show replaceAllFuel ['~'] ['0'] (x.length + 2) ('~' :: c :: x) = _
        rw [replaceAllFuel_succ_cons, if_pos ⟨by simp, by simp [List.isPrefixOf]⟩]
        show ['0'] ++ replaceAllFuel ['~'] ['0'] (x.length + 1) (List.drop 0 (c :: x)) = _
        rw [List.drop_zero, replaceAllFuel_no_tilde _ _ hnt]
        rfl
      have hfinal :
          parseFloatQ (replaceAll "~".data "0".data
            (replaceAll "~-".data "-0".data ('~' :: c :: x))) = some v := by
        rw [hrep1, hrep2]
        rw [show parseFloatQ ('0' :: c :: x) = parseUnsignedQ ('0' :: c :: x) by
          simp [parseFloatQ]]
        exact parseUnsignedQ_zero_cons hpu
      simp [parse_coordinate, hfinal]

/-- C5 counterexample to the claim as stated: the token `~+1` has remainder
`+1` after the `~`, which parses as the float `1` (Rust's float grammar
accepts a leading `+`), so the claim predicts resolution to `1 + current`;
the code instead rewrites the token to `0+1`, fails to parse it, and
errors.  Conversely `~-` has remainder `-`, which is not a float, yet
the code resolves it (to `-0 + current`). -/
theorem claim_C5_counterexample :
    parseFloatQ "+1".data = some 1 ∧
    parse_coordinate "~+1".data 0 = .error (.InvalidCoordinate "~+1".data) ∧
    parseFloatQ "-".data = none ∧
    parse_coordinate "~-".data 0 = .ok 0 := by
  refine ⟨?_, ?_, ?_, ?_⟩
  · have h : parseFloatQ "+1".data = some ((natVal "1".data : ℚ)) := rfl
    rw [h, show natVal "1".data = 1 from rfl]
    norm_num
  · rfl
  · rfl
  · have h : parse_coordinate "~-".data 0 =
        .ok (-(natVal "0".data : ℚ) + 0) := rfl
    rw [h, show natVal "0".data = 0 from rfl]
    norm_num

/-- C5 (amended): a token not starting with `~` parses directly as a float;
a `~`-token is resolved by the textual rewrite `~-` → `-0`, `~` → `0`
followed by a float parse, which for an empty remainder yields the
current value unchanged and for any parseable remainder not carrying a
`+` sign yields the remainder's value plus the entity's current value;
an absolute transform followed by the same transform with `~0` leaves the
recorded value unchanged. -/
theorem claim_C5_relative_coordinates (s r : Str) (current v w : ℚ) :
    (s.head? ≠ some '~' → parseFloatQ s = some w →
      parse_coordinate s current = .ok w) ∧
    (parse_coordinate "~".data current = .ok current) ∧
    (r.head? ≠ some '+' → parseFloatQ r = some v →
      parse_coordinate ('~' :: r) current = .ok (v + current)) ∧
    (parse_coordinate "5".data 0 = .ok 5 ∧ parse_coordinate "~0".data 5 = .ok 5) := by
  refine ⟨?_, ?_, ?_, ?_, ?_⟩
  · intro h hw
    simp [parse_coordinate, h, hw]
  · have h : parse_coordinate "~".data current =
        .ok ((natVal "0".data : ℚ) + current) := rfl
    rw [h, show natVal "0".data = 0 from rfl]
    norm_num
  · exact fun h1 h2 => tilde_resolves current h1 h2
  · have h : parse_coordinate "5".data 0 = .ok ((natVal "5".data : ℚ)) := rfl
    rw [h, show natVal "5".data = 5 from rfl]
    norm_num
  · have h : parse_coordinate "~0".data 5 =
        .ok ((natVal "00".data : ℚ) + 5) := rfl
    rw [h, show natVal "00".data = 0 from rfl]
    norm_num

/-- C5 witness: the amended theorem applied at concrete inputs. -/
theorem claim_C5_relative_coordinates_witness :
    parse_coordinate "~2".data 5 = .ok (2 + 5 : ℚ) ∧
    parse_coordinate "17".data 0 = .ok 17 := by
  constructor
  · have h := (claim_C5_relative_coordinates "17".data "2".data 5 2 17).2.2.1
      (by decide)
      (by
        have h2 : parseFloatQ "2".data = some ((natVal "2".data : ℚ)) := rfl
        rw [h2, show natVal "2".data = 2 from rfl]
        norm_num)
    exact h
  · exact (claim_C5_relative_coordinates "17".data "2".data 5 2 17).1
      (by decide)
      (by
        have h2 : parseFloatQ "17".data = some ((natVal "17".data : ℚ)) := rfl
        rw [h2, show natVal "17".data = 17 from rfl]
        norm_num)

/-! ## Shared string splitting (models Rust `str::split` and friends) -/

/-- Split a character list at every character satisfying `p`, keeping empty
segments (the semantics of Rust's `str::split`). -/
def splitOnPred (p : Char → Bool) : Str → List Str
  | [] => [[]]
  | c :: cs =>
    if p c then [] :: splitOnPred p cs
    else
      match splitOnPred p cs with
      | [] => [[c]]
      | l :: ls => (c :: l) :: ls

theorem splitOnPred_ne_nil (p : Char → Bool) (s : Str) : splitOnPred p s ≠ [] := by
  cases s with
  | nil => simp [splitOnPred]
  | cons c cs =>
    rw [splitOnPred]
    by_cases h : p c
    · simp [h]
    · rw [if_neg h]
      cases hs : splitOnPred p cs <;> simp

theorem splitOnPred_no_sep (p : Char → Bool) :
    ∀ {a : Str}, (∀ c ∈ a, p c = false) → splitOnPred p a = [a] := by
  intro a
  induction a with
  | nil => intro _; rfl
  | cons c cs ih =>
    intro h
    rw [splitOnPred, if_neg (by simp [h c (List.mem_cons_self c cs)])]
    rw [ih (fun d hd => h d (List.mem_cons_of_mem c hd))]

theorem splitOnPred_append_sep (p : Char → Bool) {sep : Char} (hsep : p sep = true) :
    ∀ (a b : Str), splitOnPred p (a ++ sep :: b) = splitOnPred p a ++ splitOnPred p b := by
  intro a
  induction a with
  | nil => intro b; simp [splitOnPred, hsep]
  | cons c cs ih =>
    intro b
    by_cases h : p c
    · rw [List.cons_append, splitOnPred, if_pos h, ih b]
      rw [splitOnPred, if_pos h]
      rfl
    · rw [List.cons_append, splitOnPred, if_neg h, ih b]
      rw [splitOnPred, if_neg h]
      cases hs : splitOnPred p cs with
      | nil => exact absurd hs (splitOnPred_ne_nil p cs)
      | cons l ls => rfl

/-- Join segments with a separator character (Rust `[&str]::join`). -/
def joinWith (sep : Char) : List Str → Str
  | [] => []
  | [l] => l
  | l :: ls => l ++ sep :: joinWith sep ls

theorem joinWith_splitOnPred (sep : Char) :
    ∀ s : Str, joinWith sep (splitOnPred (· == sep) s) = s := by
  intro s
  induction s with
  | nil => rfl
  | cons c cs ih =>
    by_cases h : c = sep
    · rw [splitOnPred, if_pos (by simp [h])]
      obtain ⟨l, ls, hr⟩ := List.exists_cons_of_ne_nil (splitOnPred_ne_nil (· == sep) cs)
      rw [hr]
      rw [hr] at ih
      rw [show joinWith sep ([] :: l :: ls) = [] ++ sep :: joinWith sep (l :: ls) from rfl]
      simp [ih, h]
    · rw [splitOnPred, if_neg (by simp [h])]
      cases hs : splitOnPred (· == sep) cs with
      | nil => exact absurd hs (splitOnPred_ne_nil _ cs)
      | cons l ls =>
        rw [hs] at ih
        cases ls with
        | nil =>
          simp only [joinWith] at ih ⊢
          rw [ih]
        | cons m ms =>
          rw [show joinWith sep ((c :: l) :: m :: ms) =
            (c :: l) ++ sep :: joinWith sep (m :: ms) from rfl]
          rw [show joinWith sep (l :: m :: ms) =
            l ++ sep :: joinWith sep (m :: ms) from rfl] at ih
          rw [List.cons_append, ih]

/-! ## Claim C6: the `end` terminator -/

/-- statements.rs `KeywordStatement` (transform payloads; coordinates over
`ℚ`, see the C5 section). -/
inductive KeywordStatement where
  | Translate (x y z : ℚ)
  | Rotate (yaw pitch roll : ℚ)
  | Scale (x y z : ℚ)
deriving DecidableEq

/-- statements.rs `Statement`. -/
inductive Statement where
  | ObjectName (name : Str)
  | AnimationName (name : Str)
  | Block (ns : NumberSet)
  | BlockEnd
  | KeywordStmt (ns : NumberSet) (entity : Str) (k : KeywordStatement)
  | End (value : Nat)
  | EndOfFile
deriving DecidableEq

/-- statements.rs `remove_last_char` (`&s[..s.len() - 1]`). -/
def remove_last_char (s : Str) : Str := s.dropLast

/-- Rust `str::ends_with(char)`. -/
def endsWithChar (s : Str) (c : Char) : Bool := s.getLast? == some c

/-- statements.rs `Statement::parse_end` (lines 304-348): checks, in order,
the `;` terminator, that the number is `Delay`-typed, the word count, and
the `end` keyword, then produces `End(value)`. -/
def parse_end (number : Number) (buffer : Str) : Except ErrorType Statement :=
  if ¬ endsWithChar buffer ';' then
    .error (.IncorrectSeparator buffer ';')
  else if ¬ (number.number_type = .Delay) then
    .error (.IncorrectNumberType number .Delay)
  else if ¬ ((splitOnPred (· == ' ') buffer).length = 2) then
    .error (.IncorrectArgumentCount buffer 0 (splitOnPred (· == ' ') buffer).length)
  else if ¬ (((splitOnPred (· == ' ') buffer).getLast?).elim false
      (fun w => remove_last_char w == "end".data)) then
    .error (.InvalidKeyword (((splitOnPred (· == ' ') buffer).getLast?).elim [] id))
  else
    .ok (.End number.value)

/-- C6: a terminator statement reached with a single prefixed Number parses
to `End(value)` only when the Number is `Delay`-typed; a `Duration`-typed
Number yields the incorrect-number-type error. -/
theorem claim_C6_end_requires_delay (buffer : Str) (number : Number) :
    (endsWithChar buffer ';' = true → number.number_type = .Duration →
      parse_end number buffer = .error (.IncorrectNumberType number .Delay)) ∧
    (∀ s, parse_end number buffer = .ok s →
      number.number_type = .Delay ∧ s = .End number.value) := by
  constructor
  · intro he hd
    unfold parse_end
    rw [if_neg (not_not_intro he), if_pos (by simp [hd])]
  · intro s h
    unfold parse_end at h
    split at h
    · exact absurd h (by simp)
    · split at h
      · exact absurd h (by simp)
      · rename_i hD
        split at h
        · exact absurd h (by simp)
        · split at h
          · exact absurd h (by simp)
          · exact ⟨not_not.mp hD, (Except.ok.inj h).symm⟩

/-- C6 witness: a `Duration`-typed number fails with the
incorrect-number-type error; a `Delay`-typed one produces `End`. -/
theorem claim_C6_end_requires_delay_witness :
    parse_end ⟨5, .Duration⟩ "%5 end;".data =
      .error (.IncorrectNumberType ⟨5, .Duration⟩ .Delay) ∧
    (Number.mk 10 .Delay).number_type = .Delay ∧
    (Statement.End 10 : Statement) = .End (Number.mk 10 .Delay).value := by
  refine ⟨(claim_C6_end_requires_delay "%5 end;".data ⟨5, .Duration⟩).1 rfl rfl, ?_⟩
  exact (claim_C6_end_requires_delay "@10 end;".data ⟨10, .Delay⟩).2 (.End 10) rfl

/-! ## Claim C10: totality of `Number::from_str` -/

/-- Rust `str::split_at(1)`: `none` models the panic raised when the index
is past the end (empty string) or not on a char boundary (first char
wider than one byte). -/
def rustSplitAtOne : Str → Option (Str × Str)
  | [] => none
  | c :: cs => if c.utf8Size = 1 then some ([c], cs) else none

/-- objects.rs `NumberType::try_from(char)` (lines 348-358): `@` is Delay,
`%` is Duration. -/
def charToNumberType (c : Char) : Except ErrorType NumberType :=
  if c = '@' then .ok .Delay
  else if c = '%' then .ok .Duration
  else .error (.InvalidNumberPrefixMark c)

/-- Rust `<u32 as FromStr>::from_str`: optional leading `+`, then one or
more ASCII digits, with the value required to fit in 32 bits. -/
def parseU32 (s : Str) : Except ErrorType Nat :=
  let t := match s with
    | '+' :: rest => rest
    | _ => s
  if t ≠ [] ∧ t.all Char.isDigit ∧ natVal t < 2 ^ 32 then .ok (natVal t)
  else .error (.InvalidInt s)

/-- objects.rs `Number::from_str` (lines 273-288).  The source first calls
`s.split_at(1)` — which panics on the empty string — and only then guards
`prefix_str.chars().next()` with the `StringSectionEmpty` error; the outer
`Option` models the panic. -/
def numberFromStr (s : Str) : Option (Except ErrorType Number) :=
  match rustSplitAtOne s with
  | none => none
  | some (prefix_str, number_str) =>
    some (do
      let c ← match prefix_str.head? with
        | some c => Except.ok c
        | none => Except.error (.StringSectionEmpty s)
      let number_type ← charToNumberType c
      let value ← parseU32 number_str
      Except.ok ⟨value, number_type⟩)

/-- C10: `Number::from_str` is NOT total — on the empty string the
`split_at(1)` call panics (modelled as `none`) instead of returning the
string-section-empty error; on non-empty one-byte-prefixed inputs it does
return a value or a typed error. -/
theorem claim_C10_from_str_panics_on_empty :
    numberFromStr "".data = none ∧
    numberFromStr "@5".data = some (.ok ⟨5, .Delay⟩) ∧
    numberFromStr "%12".data = some (.ok ⟨12, .Duration⟩) ∧
    numberFromStr "x5".data = some (.error (.InvalidNumberPrefixMark 'x')) := by
  refine ⟨rfl, rfl, rfl, rfl⟩

/-! ## Claim C7: the error aggregator (main.rs `collect_errors`) -/

/-- The composite message built by main.rs `collect_errors` (lines 44-55):
enumerate the input, keep the `Err` elements, and fold their
`"{index}: {message}\n"` lines into one string. -/
def collectMsg {T E : Type} (disp : E → Str) (input : List (Except E T)) : Str :=
  (input.enum.filterMap (fun p =>
      match p.2 with
      | .error e => some (p.1, e)
      | .ok _ => none)).foldl
    (fun acc p => acc ++ natStr p.1 ++ ": ".data ++ disp p.2 ++ "\n".data) []

/-- main.rs `collect_errors`: `Ok` with all the `Ok` values when no element
failed, otherwise a single composite `GenericError::Collection`. -/
def collect_errors {T E : Type} (disp : E → Str) (input : List (Except E T)) :
    Except GenericError (List T) :=
  if (collectMsg disp input).isEmpty then
    .ok (input.filterMap (fun r =>
      match r with
      | .ok v => some v
      | .error _ => none))
  else
    .error (.Collection (collectMsg disp input))

/-- The per-error lines of the composite message, one list entry per `Err`
element, indices starting at `k`. -/
def errLines {T E : Type} (disp : E → Str) : Nat → List (Except E T) → List Str
  | _, [] => []
  | i, .ok _ :: rest => errLines disp (i + 1) rest
  | i, .error e :: rest =>
    (natStr i ++ ": ".data ++ disp e ++ "\n".data) :: errLines disp (i + 1) rest

theorem collectMsg_aux {T E : Type} (disp : E → Str) :
    ∀ (input : List (Except E T)) (k : Nat) (acc : Str),
      ((List.enumFrom k input).filterMap (fun p =>
          match p.2 with
          | .error e => some (p.1, e)
          | .ok _ => none)).foldl
        (fun acc p => acc ++ natStr p.1 ++ ": ".data ++ disp p.2 ++ "\n".data) acc
      = acc ++ (errLines disp k input).flatten := by
  intro input
  induction input with
  | nil => intro k acc; simp [errLines]
  | cons x rest ih =>
    intro k acc
    cases x with
    | ok v =>
      simp only [List.enumFrom_cons, List.filterMap_cons]
      rw [ih (k + 1) acc]
      rfl
    | error e =>
      simp only [List.enumFrom_cons, List.filterMap_cons]
      rw [List.foldl_cons, ih (k + 1)]
      simp [errLines, List.append_assoc]

theorem collectMsg_eq {T E : Type} (disp : E → Str) (input : List (Except E T)) :
    collectMsg disp input = (errLines disp 0 input).flatten := by
  have h := collectMsg_aux disp input 0 []
  simpa [collectMsg, List.enum] using h

theorem errLines_flatten_eq_nil {T E : Type} (disp : E → Str) :
    ∀ (input : List (Except E T)) (k : Nat),
      (errLines disp k input).flatten = [] ↔ ∀ x ∈ input, ∀ e, x ≠ .error e := by
  intro input
  induction input with
  | nil => intro k; simp [errLines]
  | cons x rest ih =>
    intro k
    cases x with
    | ok v =>
      rw [show errLines disp k (.ok v :: rest) = errLines disp (k + 1) rest from rfl]
      rw [ih (k + 1)]
      simp
    | error e =>
      rw [show errLines disp k (.error e :: rest) =
        (natStr k ++ ": ".data ++ disp e ++ "\n".data) :: errLines disp (k + 1) rest from rfl]
      simp

theorem errLines_infix {T E : Type} (disp : E → Str) :
    ∀ (input : List (Except E T)) (k i : Nat) (e : E),
      input.get? i = some (.error e) →
      (natStr (k + i) ++ ": ".data ++ disp e ++ "\n".data) <:+:
        (errLines disp k input).flatten := by
  intro input
  induction input with
  | nil => intro k i e h; simp at h
  | cons x rest ih =>
    intro k i e h
    cases i with
    | zero =>
      have hx : x = .error e := by simpa using h
      subst hx
      exact ⟨[], (errLines disp (k + 1) rest).flatten, by simp [errLines]⟩
    | succ n =>
      have h2 : rest.get? n = some (.error e) := by simpa using h
      have h3 := ih (k + 1) n e h2
      have harith : k + (n + 1) = k + 1 + n := by omega
      rw [harith]
      cases x with
      | ok v => exact h3
      | error e2 =>
        obtain ⟨s, u, hsu⟩ := h3
        refine ⟨(natStr k ++ ": ".data ++ disp e2 ++ "\n".data) ++ s, u, ?_⟩
        rw [show errLines disp k (.error e2 :: rest) =
          (natStr k ++ ": ".data ++ disp e2 ++ "\n".data) :: errLines disp (k + 1) rest
          from rfl]
        simp only [List.flatten_cons]
        rw [← hsu]
        simp [List.append_assoc]

theorem all_ok_map_filterMap {T E : Type} :
    ∀ (input : List (Except E T)), (∀ x ∈ input, ∀ e, x ≠ .error e) →
      input = (input.filterMap (fun r =>
        match r with
        | .ok v => some v
        | .error _ => none)).map Except.ok := by
  intro input
  induction input with
  | nil => intro _; rfl
  | cons x rest ih =>
    intro h
    cases x with
    | ok v =>
      rw [List.filterMap_cons]
      simp only [List.map_cons]
      rw [← ih (fun y hy => h y (List.mem_cons_of_mem _ hy))]
    | error e => exact absurd rfl (h (.error e) (List.mem_cons_self _ _) e)

theorem filterMap_ok_map {T E : Type} (vs : List T) :
    (vs.map (Except.ok : T → Except E T)).filterMap (fun r =>
      match r with
      | .ok v => some v
      | .error _ => none) = vs := by
  induction vs with
  | nil => rfl
  | cons v rest ih => simp [List.filterMap_cons, ih]

/-- C7: `collect_errors` returns `Ok` with exactly the `Ok` values, in
order, iff the input has no `Err`; otherwise it returns one composite
`Collection` error whose message contains, for every `Err` element, the
line made of that element's index and message. -/
theorem claim_C7_collect_errors {T E : Type} (disp : E → Str)
    (input : List (Except E T)) (vs : List T) :
    (collect_errors disp input = .ok vs ↔ input = vs.map Except.ok) ∧
    ((∃ e2, Except.error e2 ∈ input) →
      ∃ msg, collect_errors disp input = .error (.Collection msg) ∧
        ∀ j e3, input.get? j = some (.error e3) →
          (natStr j ++ ": ".data ++ disp e3 ++ "\n".data) <:+: msg) := by
  constructor
  · constructor
    · intro h
      unfold collect_errors at h
      split at h
      · rename_i hemp
        rw [List.isEmpty_iff, collectMsg_eq] at hemp
        have hok := (errLines_flatten_eq_nil disp input 0).mp hemp
        have h2 := all_ok_map_filterMap input hok
        rw [Except.ok.inj h] at h2
        exact h2
      · exact absurd h (by simp)
    · intro h
      subst h
      have hok : ∀ x ∈ vs.map (Except.ok : T → Except E T), ∀ e, x ≠ Except.error e := by
        intro x hx e
        obtain ⟨v, -, hv⟩ := List.mem_map.mp hx
        rw [← hv]
        simp
      have hemp : (collectMsg disp (vs.map Except.ok)).isEmpty := by
        rw [collectMsg_eq, List.isEmpty_iff]
        exact (errLines_flatten_eq_nil disp _ 0).mpr hok
      unfold collect_errors
      rw [if_pos hemp]
      rw [filterMap_ok_map]
  · intro h
    obtain ⟨e2, hmem⟩ := h
    have hne : ¬ (collectMsg disp input).isEmpty = true := by
      rw [collectMsg_eq, List.isEmpty_iff]
      intro hnil
      exact absurd rfl
        (((errLines_flatten_eq_nil disp input 0).mp hnil) (.error e2) hmem e2)
    refine ⟨collectMsg disp input, ?_, ?_⟩
    · unfold collect_errors
      rw [if_neg hne]
    · intro j e3 hj
      rw [collectMsg_eq]
      have h4 := errLines_infix disp input 0 j e3 hj
      simpa using h4

/-- C7 witness: a batch with one failure at index 1 yields a single
composite error whose message contains the indexed line. -/
theorem claim_C7_collect_errors_witness :
    ∃ msg, collect_errors (fun e => e)
        [Except.ok 1, Except.error "boom".data, Except.ok 2] =
      .error (.Collection msg) ∧
      (natStr 1 ++ ": ".data ++ "boom".data ++ "\n".data) <:+: msg := by
  obtain ⟨msg, h1, h2⟩ := (claim_C7_collect_errors (fun e => e)
    [Except.ok 1, Except.error "boom".data, Except.ok 2] []).2
    ⟨"boom".data, by simp⟩
  exact ⟨msg, h1, h2 1 "boom".data rfl⟩

/-! ## Claim C1: the block stack (file_reader.rs `collapse_blocks`)

The Rust `Vec<Block>` stack is modelled with the most recent block at the
HEAD of the list: `push` is `cons`, `pop` is `tail`, `last()` is `head?`.
Interpolated parts of error messages are dropped except where a claim
depends on the text ("Unbalanced brackets ..."). -/

/-- file_reader.rs `NumberType::try_from(char)` (lines 33-43): `t` is
Delay, `d` is Duration. -/
def charToNumberTypeFR (c : Char) : Except Str NumberType :=
  if c = 't' then .ok .Delay
  else if c = 'd' then .ok .Duration
  else .error "Char does not correspond to a NumberType.".data

/-- Rendering of errors.rs `GenericError` (its `thiserror` display). -/
def genericErrorStr : GenericError → Str
  | .InvalidPath s => "The path '".data ++ s ++ "' does not lead to a valid file.".data
  | .BlockQueueEmpty => "Block queue is empty.".data
  | .FileNotExist s => "The file with path '".data ++ s ++ "' does not exist.".data
  | .Collection msg =>
    "Could to compile one or more files due to errors:\n".data ++ msg

/-- file_reader.rs `Number::try_from(&str)` (lines 49-62): split at the
first `_`, read the one-character discriminator after it, parse the part
before it as `u32`. -/
def numberTryFromFR (value : Str) : Except Str Number :=
  match splitOnceChar '_' value with
  | none => .error "Number did not contain type discriminator: No underscore.".data
  | some (lhs, rhs) =>
    match rhs.head? with
    | none => .error "Number did not contain type discriminator: No discriminator.".data
    | some c =>
      match charToNumberTypeFR c with
      | .error e => .error e
      | .ok number_type =>
        match parseU32 lhs with
        | .error _ => .error "invalid digit found in string".data
        | .ok v => .ok ⟨v, number_type⟩

/-- file_reader.rs `parse_block_definition` (lines 216-240): split the
definition on spaces, drop `{`, parse each word as a Number aggregating
parse failures, then resolve (see `blockDefNumbersResolve`). -/
def parse_block_definition (definition : Str) (previous_block : Block) :
    Except Str (Nat × Nat) :=
  match collect_errors (fun e => e)
      (((splitOnPred (· == ' ') definition).filter
        (fun s => ! (s == "\x7b".data))).map numberTryFromFR) with
  | .error e => .error (genericErrorStr e)
  | .ok numbers => blockDefNumbersResolve numbers previous_block

/-- Rust `str::contains(&str)`: `containsSub s pat` is true when `pat`
occurs contiguously inside `s`. -/
def containsSub : Str → Str → Bool
  | [], pat => pat.isEmpty
  | c :: cs, pat => pat.isPrefixOf (c :: cs) || containsSub cs pat

/-- file_reader.rs `KEYWORDS` (lines 350-361). -/
def KEYWORDS : List Str :=
  ["move".data, "translate".data, "m".data, "turn".data, "rotate".data, "r".data,
   "size".data, "scale".data, "s".data, "end".data]

/-- file_reader.rs `get_keyword` (lines 362-364): the first keyword that
occurs anywhere in the statement. -/
def get_keyword (input : Str) : Option Str :=
  KEYWORDS.find? (fun k => containsSub input k)

/-- First segment of Rust `str::split_inclusive(pat)`: everything up to
and including the first occurrence of `pat` (the whole string when `pat`
does not occur). -/
def segIncl (pat : Str) : Str → Str
  | [] => []
  | c :: cs =>
    if pat.isPrefixOf (c :: cs) then (c :: cs).take pat.length
    else c :: segIncl pat cs

/-- Rust `str::split_inclusive(pat).next()`. -/
def firstSegmentIncl (s pat : Str) : Option Str :=
  match s with
  | [] => none
  | _ :: _ => some (segIncl pat s)

/-- One statement's worth of file_reader.rs `collapse_blocks` (lines
172-210): the closure passed to `map`, threading the block stack.
A `{`-statement pushes; `}` pops (failing on the base entry); any other
statement is prefixed with the current block's duration and delay unless
its start already carries `_d` / `_t` markers. -/
def collapseStep (blocks : List Block) (statement : Str) :
    List Block × Except Str Str :=
  if statement.contains '{' then
    match blocks.head? with
    | none => (blocks, .error (genericErrorStr .BlockQueueEmpty))
    | some previous_block =>
      match parse_block_definition statement previous_block with
      | .error e => (blocks, .error e)
      | .ok (d, dur) => (⟨d, dur⟩ :: blocks, .ok [])
  else if statement = "\x7d".data then
    if blocks.length > 1 then (blocks.tail, .ok [])
    else (blocks, .error "Unbalanced brackets: Too many closing brackets.".data)
  else
    match blocks.head? with
    | none => (blocks, .error (genericErrorStr .BlockQueueEmpty))
    | some current_block =>
      match get_keyword statement with
      | none => (blocks, .error "Statement does not contain a keyword.".data)
      | some keyword =>
        match firstSegmentIncl statement keyword with
        | none => (blocks, .error "Statement does not contain a keyword.".data)
        | some statement_start =>
          (blocks, .ok (
            if ! (containsSub statement_start "_t".data) then
              natStr current_block.delay ++ "_t ".data ++
                (if ! (containsSub statement_start "_d".data) then
                  natStr current_block.duration ++ "_d ".data ++ statement
                else statement)
            else
              if ! (containsSub statement_start "_d".data) then
                natStr current_block.duration ++ "_d ".data ++ statement
              else statement))

/-- The `map` pass of `collapse_blocks`: thread the stack through all
statements, collecting per-statement results in order. -/
def collapseRun : List Block → List Str → List Block × List (Except Str Str)
  | blocks, [] => (blocks, [])
  | blocks, s :: rest =>
    ((collapseRun (collapseStep blocks s).1 rest).1,
     (collapseStep blocks s).2 :: (collapseRun (collapseStep blocks s).1 rest).2)

/-- file_reader.rs `collapse_blocks`: run the statements over the stack
that starts with one default block, drop the empty `Ok` placeholders left
by block markers, aggregate the rest. -/
def collapse_blocks (statements : List Str) : Except GenericError (List Str) :=
  collect_errors (fun e => e)
    (((collapseRun [⟨0, 0⟩] statements).2).filter
      (fun r =>
        match r with
        | .ok s => ! s.isEmpty
        | .error _ => true))

theorem collapseStep_stack_ne_nil (bs : List Block) (s : Str) (h : bs ≠ []) :
    (collapseStep bs s).1 ≠ [] := by
  by_cases h1 : '{' ∈ s
  · cases hh : bs.head? with
    | none => simp [collapseStep, h1, hh, h]
    | some previous =>
      cases hp : parse_block_definition s previous with
      | error e => simp [collapseStep, h1, hh, hp, h]
      | ok p =>
        obtain ⟨d, dur⟩ := p
        simp [collapseStep, h1, hh, hp]
  · by_cases h2 : s = ['}']
    · by_cases h3 : bs.length > 1
      · have h4 : (collapseStep bs s).1 = bs.tail := by
          simp [collapseStep, h1, h2, h3]
        rw [h4]
        intro hnil
        have h5 : bs.tail.length = bs.length - 1 := List.length_tail bs
        rw [hnil] at h5
        simp at h5
        omega
      · simp [collapseStep, h1, h2, h3, h]
    · cases hh : bs.head? with
      | none => simp [collapseStep, h1, h2, hh, h]
      | some current =>
        cases hk : get_keyword s with
        | none => simp [collapseStep, h1, h2, hh, hk, h]
        | some kw =>
          cases hf : firstSegmentIncl s kw with
          | none => simp [collapseStep, h1, h2, hh, hk, hf, h]
          | some st => simp [collapseStep, h1, h2, hh, hk, hf, h]

theorem collapseRun_stack_ne_nil :
    ∀ (stmts : List Str) (bs : List Block), bs ≠ [] → (collapseRun bs stmts).1 ≠ [] := by
  intro stmts
  induction stmts with
  | nil => intro bs h; exact h
  | cons s rest ih =>
    intro bs h
    have h2 := collapseStep_stack_ne_nil bs s h
    exact ih _ h2

theorem collapseRun_append :
    ∀ (pre post : List Str) (bs : List Block),
      collapseRun bs (pre ++ post) =
        ((collapseRun (collapseRun bs pre).1 post).1,
         (collapseRun bs pre).2 ++ (collapseRun (collapseRun bs pre).1 post).2) := by
  intro pre
  induction pre with
  | nil => intro post bs; rfl
  | cons s rest ih =>
    intro post bs
    rw [List.cons_append]
    rw [show collapseRun bs (s :: (rest ++ post)) =
      ((collapseRun (collapseStep bs s).1 (rest ++ post)).1,
       (collapseStep bs s).2 ::
         (collapseRun (collapseStep bs s).1 (rest ++ post)).2) from rfl]
    rw [ih post (collapseStep bs s).1]
    rfl

theorem collect_errors_mem_error {T E : Type} (disp : E → Str)
    (input : List (Except E T)) (e : E) (hmem : Except.error e ∈ input) :
    ∃ msg, collect_errors disp input = .error (.Collection msg) ∧ disp e <:+: msg := by
  obtain ⟨i, hi⟩ := List.mem_iff_get?.mp hmem
  have hinf := errLines_infix disp input 0 i e hi
  have hne : ¬ (collectMsg disp input).isEmpty = true := by
    rw [collectMsg_eq, List.isEmpty_iff]
    intro hnil
    exact absurd rfl
      (((errLines_flatten_eq_nil disp input 0).mp hnil) (.error e) hmem e)
  refine ⟨collectMsg disp input, ?_, ?_⟩
  · unfold collect_errors
    rw [if_neg hne]
  · rw [collectMsg_eq]
    have hsub : disp e <:+: (natStr (0 + i) ++ ": ".data ++ disp e ++ "\n".data) :=
      ⟨natStr (0 + i) ++ ": ".data, "\n".data, by simp [List.append_assoc]⟩
    exact hsub.trans hinf

/-- C1: a `}` processed while only the base block remains fails with the
unbalanced-brackets error (and the whole `collapse_blocks` run fails with
a composite error containing that message); with an enclosing block open,
`}` pops exactly one entry so later statements see the parent block, and
the stack never becomes empty. -/
theorem claim_C1_block_stack (bs : List Block) (s : Str) (stmts pre post : List Str) :
    (bs.length = 1 →
      collapseStep bs "\x7d".data =
        (bs, .error "Unbalanced brackets: Too many closing brackets.".data)) ∧
    (1 < bs.length → collapseStep bs "\x7d".data = (bs.tail, .ok [])) ∧
    (bs ≠ [] → (collapseStep bs s).1 ≠ []) ∧
    (bs ≠ [] → (collapseRun bs stmts).1 ≠ []) ∧
    ((collapseRun [⟨0, 0⟩] pre).1.length = 1 →
      ∃ msg, collapse_blocks (pre ++ "\x7d".data :: post) = .error (.Collection msg) ∧
        "Unbalanced brackets: Too many closing brackets.".data <:+: msg) := by
  refine ⟨?_, ?_, collapseStep_stack_ne_nil bs s, collapseRun_stack_ne_nil stmts bs, ?_⟩
  · intro h
    unfold collapseStep
    rw [if_neg (by decide), if_pos rfl, if_neg (by omega)]
  · intro h
    unfold collapseStep
    rw [if_neg (by decide), if_pos rfl, if_pos h]
  · intro h
    have hstep : collapseStep (collapseRun [⟨0, 0⟩] pre).1 "\x7d".data =
        ((collapseRun [⟨0, 0⟩] pre).1,
         .error "Unbalanced brackets: Too many closing brackets.".data) := by
      unfold collapseStep
      rw [if_neg (by decide), if_pos rfl, if_neg (by omega)]
    have hmem : Except.error "Unbalanced brackets: Too many closing brackets.".data ∈
        (collapseRun [⟨0, 0⟩] (pre ++ "\x7d".data :: post)).2 := by
      rw [collapseRun_append pre ("\x7d".data :: post) [⟨0, 0⟩]]
      rw [show collapseRun (collapseRun [⟨0, 0⟩] pre).1 ("\x7d".data :: post) =
        ((collapseRun (collapseStep (collapseRun [⟨0, 0⟩] pre).1 "\x7d".data).1 post).1,
         (collapseStep (collapseRun [⟨0, 0⟩] pre).1 "\x7d".data).2 ::
           (collapseRun
             (collapseStep (collapseRun [⟨0, 0⟩] pre).1 "\x7d".data).1 post).2) from rfl]
      rw [hstep]
      simp
    have hmemf : Except.error "Unbalanced brackets: Too many closing brackets.".data ∈
        ((collapseRun [⟨0, 0⟩] (pre ++ "\x7d".data :: post)).2).filter
          (fun r =>
            match r with
            | .ok s => ! s.isEmpty
            | .error _ => true) := by
      exact List.mem_filter_of_mem hmem rfl
    obtain ⟨msg, h1, h2⟩ := collect_errors_mem_error (fun e => e) _ _ hmemf
    exact ⟨msg, h1, h2⟩

/-- C1 witness: the concrete degenerate inputs. -/
theorem claim_C1_block_stack_witness :
    collapseStep [⟨0, 0⟩] "\x7d".data =
      ([⟨0, 0⟩], .error "Unbalanced brackets: Too many closing brackets.".data) ∧
    collapseStep [⟨1, 2⟩, ⟨0, 0⟩] "\x7d".data = ([⟨0, 0⟩], .ok []) ∧
    (∃ msg, collapse_blocks ["\x7d".data] = .error (.Collection msg) ∧
      "Unbalanced brackets: Too many closing brackets.".data <:+: msg) := by
  refine ⟨(claim_C1_block_stack [⟨0, 0⟩] [] [] [] []).1 rfl,
    (claim_C1_block_stack [⟨1, 2⟩, ⟨0, 0⟩] [] [] [] []).2.1 (by decide), ?_⟩
  exact (claim_C1_block_stack [⟨0, 0⟩] [] [] [] []).2.2.2.2 rfl

/-! ## Claim C9: defaulted names (file_reader.rs `parse_names`,
`extract_name`) -/

/-- One character of the `NAME_PATTERN` class `[A-Za-z0-9_\-]`. -/
def isNameChar (c : Char) : Bool := c.isAlpha || c.isDigit || c == '_' || c == '-'

/-- file_reader.rs `NAME_PATTERN` = `^[A-Za-z0-9_\-]*$`: every character is
in the class. -/
def isValidName (s : Str) : Bool := s.all isNameChar

/-- The name-extraction pattern shared by the `object` and `anim` arms of
file_reader.rs `parse_names`: find the first statement starting with the
keyword, take everything after its first space, or fall back. -/
def nameFromDecl (statements : List Str) (keyword missing_msg fallback : Str) :
    Except Str Str :=
  match statements.find? (fun s => keyword.isPrefixOf s) with
  | some s =>
    match splitOnceChar ' ' s with
    | none => .error missing_msg
    | some p => .ok p.2
  | none => .ok fallback

/-- file_reader.rs `parse_names` (lines 104-156): resolve the object name
(defaulting to the file name) and validate it, then the animation name
(defaulting to the object name) and validate it, and drop the name
declarations from the statement list. -/
def parse_names (statements : List Str) (file_name : Str) :
    Except Str (Str × Str × List Str) :=
  match nameFromDecl statements "object".data
      "Object name specified, but not provided.".data file_name with
  | .error e => .error e
  | .ok object_name =>
    if ¬ isValidName object_name then
      .error "Object name contains invalid characters.".data
    else
      match nameFromDecl statements "anim".data
          "Animation name specified, but not provided.".data object_name with
      | .error e => .error e
      | .ok animation_name =>
        if ¬ isValidName animation_name then
          .error "Animation name contains invalid characters.".data
        else
          .ok (object_name, animation_name,
            statements.filter (fun s =>
              ! ("object".data.isPrefixOf s) && ! ("anim".data.isPrefixOf s)))

/-- file_reader.rs `extract_name` (lines 158-167): last path component
(split on `\` and `/`), split on `.`, drop the final segment, rejoin
with `.`. -/
def extract_name (path : Str) : Except Str Str :=
  match (splitOnPred (fun c => c == '\\' || c == '/') path).getLast? with
  | none => .error "Path was empty.".data
  | some last =>
    .ok (joinWith '.' ((splitOnPred (· == '.') last).dropLast))

/-- C9: with no `object` declaration the object name is the file's base
name, with no `anim` declaration the animation name equals the object
name, both names (defaulted ones included) are validated before parsing
proceeds, and `extract_name` computes the last path component without its
final extension. -/
theorem claim_C9_default_names (stmts : List Str) (file_name o a : Str)
    (rest : List Str) (dir base ext : Str) :
    (parse_names stmts file_name = .ok (o, a, rest) →
      isValidName o = true ∧ isValidName a = true) ∧
    ((∀ s ∈ stmts, ¬ "object".data.isPrefixOf s = true) →
      parse_names stmts file_name = .ok (o, a, rest) → o = file_name) ∧
    ((∀ s ∈ stmts, ¬ "anim".data.isPrefixOf s = true) →
      parse_names stmts file_name = .ok (o, a, rest) → a = o) ∧
    ((∀ s ∈ stmts, ¬ "object".data.isPrefixOf s = true) →
      isValidName file_name = false →
      ∃ m, parse_names stmts file_name = .error m) ∧
    ((∀ c ∈ base, ¬ (c = '/' ∨ c = '\\')) →
      (∀ c ∈ ext, ¬ (c = '/' ∨ c = '\\' ∨ c = '.')) →
      extract_name (dir ++ '/' :: (base ++ '.' :: ext)) = .ok base) := by
  have hobj_none : (∀ s ∈ stmts, ¬ "object".data.isPrefixOf s = true) →
      nameFromDecl stmts "object".data
        "Object name specified, but not provided.".data file_name = .ok file_name := by
    intro hno
    unfold nameFromDecl
    rw [List.find?_eq_none.mpr (fun s hs => by simpa using hno s hs)]
  have hanim_none : ∀ fallback,
      (∀ s ∈ stmts, ¬ "anim".data.isPrefixOf s = true) →
      nameFromDecl stmts "anim".data
        "Animation name specified, but not provided.".data fallback = .ok fallback := by
    intro fallback hno
    unfold nameFromDecl
    rw [List.find?_eq_none.mpr (fun s hs => by simpa using hno s hs)]
  have hok : parse_names stmts file_name = .ok (o, a, rest) →
      isValidName o = true ∧ isValidName a = true ∧
      nameFromDecl stmts "object".data
        "Object name specified, but not provided.".data file_name = .ok o ∧
      nameFromDecl stmts "anim".data
        "Animation name specified, but not provided.".data o = .ok a := by
    intro h
    unfold parse_names at h
    cases h1 : nameFromDecl stmts "object".data
        "Object name specified, but not provided.".data file_name with
    | error e => simp only [h1] at h; exact absurd h (by simp)
    | ok o1 =>
      simp only [h1] at h
      split at h
      · exact absurd h (by simp)
      · rename_i hv1
        cases h2 : nameFromDecl stmts "anim".data
            "Animation name specified, but not provided.".data o1 with
        | error e => simp only [h2] at h; exact absurd h (by simp)
        | ok a1 =>
          simp only [h2] at h
          split at h
          · exact absurd h (by simp)
          · rename_i hv2
            have h3 := Except.ok.inj h
            have ho : o1 = o := congrArg Prod.fst h3
            have ha : a1 = a := congrArg (fun p => p.2.1) h3
            subst ho
            subst ha
            refine ⟨not_not.mp hv1, not_not.mp hv2, rfl, ?_⟩
            exact h2
  refine ⟨fun h => ⟨(hok h).1, (hok h).2.1⟩, ?_, ?_, ?_, ?_⟩
  · intro hno h
    have h1 := (hok h).2.2.1
    rw [hobj_none hno] at h1
    exact (Except.ok.inj h1).symm
  · intro hno h
    have h2 := (hok h).2.2.2
    rw [hanim_none o hno] at h2
    exact (Except.ok.inj h2).symm
  · intro hno hbad
    unfold parse_names
    simp only [hobj_none hno]
    rw [if_pos (by simp [hbad])]
    exact ⟨_, rfl⟩
  · intro hbase hext
    unfold extract_name
    have hsep : (fun c => c == '\\' || c == '/') '/' = true := by decide
    rw [splitOnPred_append_sep (fun c => c == '\\' || c == '/') hsep dir (base ++ '.' :: ext)]
    have hnosep : ∀ c ∈ base ++ '.' :: ext, (fun c => c == '\\' || c == '/') c = false := by
      intro c hc
      rcases List.mem_append.mp hc with hin | hin
      · have := hbase c hin
        simp only [Bool.or_eq_false_iff, beq_eq_false_iff_ne]
        exact ⟨fun hcc => this (Or.inr hcc), fun hcc => this (Or.inl hcc)⟩
      · rcases List.mem_cons.mp hin with hdot | hin
        · subst hdot; decide
        · have := hext c hin
          simp only [Bool.or_eq_false_iff, beq_eq_false_iff_ne]
          exact ⟨fun hcc => this (Or.inr (Or.inl hcc)), fun hcc => this (Or.inl hcc)⟩
    rw [splitOnPred_no_sep _ hnosep]
    rw [List.getLast?_concat]
    show Except.ok (joinWith '.'
      ((splitOnPred (· == '.') (base ++ '.' :: ext)).dropLast)) = Except.ok base
    have hextsplit : splitOnPred (· == '.') ext = [ext] :=
      splitOnPred_no_sep _ (fun c hc => by
        simp only [beq_eq_false_iff_ne]
        exact fun hcc => hext c hc (Or.inr (Or.inr hcc)))
    have hdotsplit : splitOnPred (· == '.') (base ++ '.' :: ext) =
        splitOnPred (· == '.') base ++ [ext] := by
      rw [splitOnPred_append_sep _ (by decide) base ext, hextsplit]
    rw [hdotsplit, List.dropLast_concat, joinWith_splitOnPred]

/-- C9 witness: a file with no `object`/`anim` declarations defaults both
names to the (valid) file name; `extract_name` strips the extension. -/
theorem claim_C9_default_names_witness :
    isValidName "file".data = true ∧
    "file".data = "file".data ∧
    extract_name "dir/file.dspa".data = .ok "file".data := by
  have h := claim_C9_default_names ["move e 1 2 3".data] "file".data "file".data
    "file".data ["move e 1 2 3".data] "dir".data "file".data "dspa".data
  refine ⟨(h.1 rfl).1, h.2.1 (by decide) rfl, ?_⟩
  have h5 := h.2.2.2.2 (by decide) (by decide)
  exact h5

/-! ## Claim C2: the buffer extractor (statements.rs `get_buffer_string`)

The Rust function drives a lazy pipeline
`iter.filter(comment-tracking).take_while_inclusive(quote-tracking)` over
a mutable `TrackedChar` iterator; `getBufferChars` is that pipeline fused
with the consumption of the underlying iterator (the returned second
component is exactly the unconsumed suffix).  The specification side
(`specBuffer`-shaped right-hand side of the claim theorem) is written
directly from the spec's words: annotate every character with its comment
flag, drop commented characters, annotate with the quote flag, and cut
inclusively at the first unquoted separator. -/

/-- objects.rs `Position` (line/column; `Default` is `(0, 0)`). -/
structure Position where
  line : Nat
  column : Nat
deriving DecidableEq, Repr

/-- objects.rs `TrackedChar`. -/
structure TrackedChar where
  position : Position
  character : Char
deriving DecidableEq, Repr

/-- The comment flag update of the `filter` closure in `get_buffer_string`
(statements.rs lines 516-523): set on `#`, cleared on newline. -/
def commentedUpdate (commented : Bool) (c : Char) : Bool :=
  if c = '#' then true else if c = '\n' then false else commented

/-- statements.rs `is_quoted` (lines 539-555): returns the new
`(escaped, quoted)` state; the returned `quoted` is also the value the
`take_while_inclusive` predicate reads.  (`escaped` is never set by any
branch, faithfully to the source.) -/
def isQuotedStep (escaped quoted : Bool) (c : Char) : Bool × Bool :=
  match quoted with
  | true => (escaped, if c = '\'' then false else true)
  | false =>
    if escaped then (false, false)
    else if c = '\'' then (escaped, true)
    else (escaped, false)

/-- The fused `filter`/`take_while_inclusive` pipeline of
`get_buffer_string`: first component is the buffer (the characters the
fold sees), second is the unconsumed rest of the stream. -/
def getBufferChars (seps : List Char) :
    Bool → Bool → Bool → List TrackedChar → List TrackedChar × List TrackedChar
  | _, _, _, [] => ([], [])
  | commented, escaped, quoted, c :: cs =>
    if commentedUpdate commented c.character then
      getBufferChars seps (commentedUpdate commented c.character) escaped quoted cs
    else
      if (isQuotedStep escaped quoted c.character).2 then
        (c :: (getBufferChars seps (commentedUpdate commented c.character)
            (isQuotedStep escaped quoted c.character).1
            (isQuotedStep escaped quoted c.character).2 cs).1,
         (getBufferChars seps (commentedUpdate commented c.character)
            (isQuotedStep escaped quoted c.character).1
            (isQuotedStep escaped quoted c.character).2 cs).2)
      else if c.character ∈ seps then ([c], cs)
      else
        (c :: (getBufferChars seps (commentedUpdate commented c.character)
            (isQuotedStep escaped quoted c.character).1
            (isQuotedStep escaped quoted c.character).2 cs).1,
         (getBufferChars seps (commentedUpdate commented c.character)
            (isQuotedStep escaped quoted c.character).1
            (isQuotedStep escaped quoted c.character).2 cs).2)

/-- The fold of `get_buffer_string` (statements.rs lines 530-536): build
the buffer string, recording the position of its first character. -/
def bufferFold (kept : List TrackedChar) : Str × Position :=
  kept.foldl (fun acc c =>
    (acc.1 ++ [c.character], if acc.1.isEmpty then c.position else acc.2))
    (([] : Str), (⟨0, 0⟩ : Position))

/-- statements.rs `get_buffer_string`, with the consumed iterator made
explicit: returns `((buffer string, start position), rest of stream)`. -/
def get_buffer_string (seps : List Char) (stream : List TrackedChar) :
    (Str × Position) × List TrackedChar :=
  (bufferFold (getBufferChars seps false false false stream).1,
   (getBufferChars seps false false false stream).2)

/-- Spec side: each character paired with the comment flag after its
update. -/
def commentFlagsFrom (b : Bool) : List TrackedChar → List (TrackedChar × Bool)
  | [] => []
  | c :: cs =>
    (c, commentedUpdate b c.character) ::
      commentFlagsFrom (commentedUpdate b c.character) cs

/-- Spec side: the characters not inside a comment. -/
def uncommentedFrom (b : Bool) (l : List TrackedChar) : List TrackedChar :=
  ((commentFlagsFrom b l).filter (fun p => ! p.2)).map Prod.fst

/-- Spec side: each character paired with the quote flag, toggled by the
quote character. -/
def quoteFlagsFrom (q : Bool) : List TrackedChar → List (TrackedChar × Bool)
  | [] => []
  | c :: cs =>
    (c, if c.character = '\'' then ! q else q) ::
      quoteFlagsFrom (if c.character = '\'' then ! q else q) cs

/-- Take elements up to and including the first one satisfying `p`. -/
def takeUntilIncl {α : Type} (p : α → Bool) : List α → List α
  | [] => []
  | x :: xs => if p x then [x] else x :: takeUntilIncl p xs

theorem isQuotedStep_no_escape (q : Bool) (c : Char) :
    isQuotedStep false q c = (false, if c = '\'' then ! q else q) := by
  cases q <;> by_cases hc : c = '\'' <;> simp [isQuotedStep, hc]

theorem takeUntilIncl_cons_pos {α : Type} (p : α → Bool) (x : α) (xs : List α)
    (h : p x = true) : takeUntilIncl p (x :: xs) = [x] := by
  rw [takeUntilIncl, if_pos h]

theorem takeUntilIncl_cons_neg {α : Type} (p : α → Bool) (x : α) (xs : List α)
    (h : p x = false) : takeUntilIncl p (x :: xs) = x :: takeUntilIncl p xs := by
  rw [takeUntilIncl, if_neg (by simp [h])]

theorem getBufferChars_spec (seps : List Char) :
    ∀ (stream : List TrackedChar) (cm q : Bool),
      (getBufferChars seps cm false q stream).1 =
        (takeUntilIncl (fun pc => ! pc.2 && decide (pc.1.character ∈ seps))
          (quoteFlagsFrom q (uncommentedFrom cm stream))).map Prod.fst := by
  intro stream
  induction stream with
  | nil => intro cm q; rfl
  | cons c cs ih =>
    intro cm q
    by_cases hcm : commentedUpdate cm c.character = true
    · rw [show getBufferChars seps cm false q (c :: cs) =
        getBufferChars seps (commentedUpdate cm c.character) false q cs by
          rw [getBufferChars, if_pos hcm]]
      rw [show uncommentedFrom cm (c :: cs) =
        uncommentedFrom (commentedUpdate cm c.character) cs by
          unfold uncommentedFrom
          rw [show commentFlagsFrom cm (c :: cs) =
            (c, commentedUpdate cm c.character) ::
              commentFlagsFrom (commentedUpdate cm c.character) cs from rfl]
          rw [List.filter_cons, if_neg (by simp [hcm])]]
      exact ih (commentedUpdate cm c.character) q
    · have hcm2 : commentedUpdate cm c.character = false := by
        simpa using hcm
      have hq := isQuotedStep_no_escape q c.character
      have huncomment : uncommentedFrom cm (c :: cs) =
          c :: uncommentedFrom (commentedUpdate cm c.character) cs := by
        unfold uncommentedFrom
        rw [show commentFlagsFrom cm (c :: cs) =
          (c, commentedUpdate cm c.character) ::
            commentFlagsFrom (commentedUpdate cm c.character) cs from rfl]
        rw [List.filter_cons, if_pos (by simp [hcm2]), List.map_cons]
      rw [huncomment]
      rw [show quoteFlagsFrom q (c :: uncommentedFrom (commentedUpdate cm c.character) cs) =
        (c, if c.character = '\'' then ! q else q) ::
          quoteFlagsFrom (if c.character = '\'' then ! q else q)
            (uncommentedFrom (commentedUpdate cm c.character) cs) from rfl]
      by_cases hq2 : (if c.character = '\'' then ! q else q) = true
      · have hstep : (getBufferChars seps cm false q (c :: cs)).1 =
            c :: (getBufferChars seps (commentedUpdate cm c.character) false
              (if c.character = '\'' then ! q else q) cs).1 := by
          rw [getBufferChars, if_neg (by simp [hcm2]), hq, if_pos hq2]
        rw [hstep, takeUntilIncl_cons_neg _ _ _ (by simp [hq2]), List.map_cons,
          ih (commentedUpdate cm c.character) (if c.character = '\'' then ! q else q)]
      · have hq2f : (if c.character = '\'' then ! q else q) = false := by
          simpa using hq2
        by_cases hsep : c.character ∈ seps
        · have hstep : (getBufferChars seps cm false q (c :: cs)).1 = [c] := by
            rw [getBufferChars, if_neg (by simp [hcm2]), hq,
              if_neg (by simp [hq2f]), if_pos hsep]
          rw [hstep, takeUntilIncl_cons_pos _ _ _ (by simp [hq2f, hsep])]
          rfl
        · have hstep : (getBufferChars seps cm false q (c :: cs)).1 =
              c :: (getBufferChars seps (commentedUpdate cm c.character) false
                (if c.character = '\'' then ! q else q) cs).1 := by
            rw [getBufferChars, if_neg (by simp [hcm2]), hq,
              if_neg (by simp [hq2f]), if_neg hsep]
          rw [hstep, takeUntilIncl_cons_neg _ _ _ (by simp [hq2f, hsep]), List.map_cons,
            ih (commentedUpdate cm c.character) (if c.character = '\'' then ! q else q)]

/-- Character stream of a string literal, with 1-based-line positions, for
concrete lexing runs. -/
def trackStr (s : String) : List TrackedChar :=
  s.data.enum.map (fun p => ⟨⟨1, p.1⟩, p.2⟩)

/-- C2: the lexer's buffer is exactly the comment-stripped prefix of the
stream cut inclusively at the first separator that is outside every
single-quoted span and outside every comment; in particular a quoted `;`
does not end the buffer (one statement, not two), and a commented `;`
does not either. -/
theorem claim_C2_lexer_quoted_separators (stream : List TrackedChar) :
    ((getBufferChars [';', '{', '}'] false false false stream).1 =
      (takeUntilIncl (fun pc => ! pc.2 && decide (pc.1.character ∈ [';', '{', '}']))
        (quoteFlagsFrom false (uncommentedFrom false stream))).map Prod.fst) ∧
    ((get_buffer_string [';', '{', '}'] (trackStr "text e 'a;b'; more;")).1.1 =
      "text e 'a;b';".data) ∧
    ((get_buffer_string [';', '{', '}']
        (get_buffer_string [';', '{', '}'] (trackStr "text e 'a;b'; more;")).2).1.1 =
      " more;".data) ∧
    ((get_buffer_string [';', '{', '}']
        (get_buffer_string [';', '{', '}'] (trackStr "a; #x;\nb;")).2).1.1 =
      " \nb;".data) := by
  exact ⟨getBufferChars_spec [';', '{', '}'] stream false false, rfl, rfl, rfl⟩

/-! ## Claim C8: the code generator's terminator and tick driver
(src/compiled.rs `reset`, `increment`, `transformation`, `program`) -/

/-- compiled.rs `reset` (lines 187-194), first emitted line: reset the
flags counter to 0 once the timer reaches the delay. -/
def resetFlagsLine (object_name animation_name : Str) (delay : Nat) : Str :=
  "execute if score $".data ++ object_name ++ "-".data ++ animation_name ++
    " timer matches ".data ++ natStr delay ++
    ".. run scoreboard players set $".data ++ object_name ++ "-".data ++
    animation_name ++ " flags 0".data

/-- compiled.rs `reset`, second emitted line: reset the timer counter to
-1 once the timer reaches the delay. -/
def resetTimerLine (object_name animation_name : Str) (delay : Nat) : Str :=
  "execute if score $".data ++ object_name ++ "-".data ++ animation_name ++
    " timer matches ".data ++ natStr delay ++
    ".. run scoreboard players set $".data ++ object_name ++ "-".data ++
    animation_name ++ " timer -1".data

/-- compiled.rs `reset`: a leading newline, the two guarded reset lines,
and a trailing newline (the `\` line continuations in the Rust literal
eat the indentation). -/
def reset (object_name animation_name : Str) (delay : Nat) : Str :=
  "\n".data ++ resetFlagsLine object_name animation_name delay ++ "\n".data ++
    resetTimerLine object_name animation_name delay ++ "\n".data

/-- compiled.rs `increment` (lines 196-198): the per-tick step driver. -/
def increment (object_name animation_name : Str) : Str :=
  "scoreboard players add $".data ++ object_name ++ "-".data ++ animation_name ++
    " timer 1".data

/-- compiled.rs `disclaimer`. -/
def disclaimer : Str := "# File generated using DiSPA".data

/-- compiled.rs `transformation` (lines 157-170): one timer-gated
data-merge line for a transform statement. -/
def transformation (object_name animation_name entity_name : Str)
    (delay duration : Nat) (t : Str) : Str :=
  "execute as @e[tag=".data ++ object_name ++ ",tag=".data ++ entity_name ++
    "] if score $".data ++ object_name ++ "-".data ++ animation_name ++
    " timer matches ".data ++ natStr delay ++
    " run data merge entity @s \x7bstart_interpolation:0,interpolation_duration:".data ++
    natStr duration ++ ",transformation:\x7b".data ++ t ++ "\x7d\x7d".data

/-- The contents assembly of compiled.rs `program` (lines 105-111):
disclaimer, statement lines, reset block, increment line, joined by
newlines. -/
def programContents (body : Str) (object_name animation_name : Str) (delay : Nat) : Str :=
  disclaimer ++ "\n".data ++ body ++ "\n".data ++
    reset object_name animation_name delay ++ "\n".data ++
    increment object_name animation_name

/-- No newline occurs in `s`. -/
def nlFree (s : Str) : Bool := s.all (fun c => ! (c == '\n'))

theorem nlFree_chars {s : Str} (h : nlFree s = true) : ∀ c ∈ s, (c == '\n') = false := by
  intro c hc
  have h2 := List.all_eq_true.mp h c hc
  simpa using h2

theorem nlFree_append {a b : Str} (ha : nlFree a = true) (hb : nlFree b = true) :
    nlFree (a ++ b) = true := by
  unfold nlFree at ha hb ⊢
  rw [List.all_append, ha, hb]
  rfl

theorem digitChar_ne_newline (n : Nat) : Nat.digitChar n ≠ '\n' := by
  by_cases h : n < 16
  · interval_cases n <;> decide
  · have hstar : Nat.digitChar n = '*' := by
      unfold Nat.digitChar
      rw [if_neg (by omega : ¬ n = 0)]
      rw [if_neg (by omega : ¬ n = 1)]
      rw [if_neg (by omega : ¬ n = 2)]
      rw [if_neg (by omega : ¬ n = 3)]
      rw [if_neg (by omega : ¬ n = 4)]
      rw [if_neg (by omega : ¬ n = 5)]
      rw [if_neg (by omega : ¬ n = 6)]
      rw [if_neg (by omega : ¬ n = 7)]
      rw [if_neg (by omega : ¬ n = 8)]
      rw [if_neg (by omega : ¬ n = 9)]
      rw [if_neg (by omega : ¬ n = 10)]
      rw [if_neg (by omega : ¬ n = 11)]
      rw [if_neg (by omega : ¬ n = 12)]
      rw [if_neg (by omega : ¬ n = 13)]
      rw [if_neg (by omega : ¬ n = 14)]
      rw [if_neg (by omega : ¬ n = 15)]
    rw [hstar]
    decide

theorem toDigitsCore_ne_newline :
    ∀ (fuel n : Nat) (ds : List Char), (∀ c ∈ ds, c ≠ '\n') →
      ∀ c ∈ Nat.toDigitsCore 10 fuel n ds, c ≠ '\n' := by
  intro fuel
  induction fuel with
  | zero => intro n ds h; simpa [Nat.toDigitsCore] using h
  | succ f ih =>
    intro n ds h
    rw [Nat.toDigitsCore]
    split
    · intro c hc
      rcases List.mem_cons.mp hc with h1 | h1
      · rw [h1]; exact digitChar_ne_newline _
      · exact h c h1
    · refine ih (n / 10) (Nat.digitChar (n % 10) :: ds) ?_
      intro c hc
      rcases List.mem_cons.mp hc with h1 | h1
      · rw [h1]; exact digitChar_ne_newline _
      · exact h c h1

theorem nlFree_natStr (n : Nat) : nlFree (natStr n) = true := by
  rw [nlFree, List.all_eq_true]
  intro c hc
  have h := toDigitsCore_ne_newline (n + 1) n [] (by simp) c hc
  simpa using h

theorem nlFree_resetFlagsLine {o a : Str} (d : Nat)
    (ho : nlFree o = true) (ha : nlFree a = true) :
    nlFree (resetFlagsLine o a d) = true := by
  unfold resetFlagsLine
  repeat' apply nlFree_append
  all_goals first
    | exact ho
    | exact ha
    | exact nlFree_natStr d
    | decide

theorem nlFree_resetTimerLine {o a : Str} (d : Nat)
    (ho : nlFree o = true) (ha : nlFree a = true) :
    nlFree (resetTimerLine o a d) = true := by
  unfold resetTimerLine
  repeat' apply nlFree_append
  all_goals first
    | exact ho
    | exact ha
    | exact nlFree_natStr d
    | decide

theorem nlFree_increment {o a : Str}
    (ho : nlFree o = true) (ha : nlFree a = true) :
    nlFree (increment o a) = true := by
  unfold increment
  repeat' apply nlFree_append
  all_goals first
    | exact ho
    | exact ha
    | decide

theorem reset_lines {o a : Str} (d : Nat)
    (ho : nlFree o = true) (ha : nlFree a = true) :
    splitOnPred (· == '\n') (reset o a d) =
      [[], resetFlagsLine o a d, resetTimerLine o a d, []] := by
  have hsep : ((fun c : Char => c == '\n') '\n') = true := rfl
  have hform : reset o a d =
      ([] : Str) ++ '\n' :: (resetFlagsLine o a d ++ '\n' ::
        (resetTimerLine o a d ++ '\n' :: ([] : Str))) := by
    simp [reset, List.append_assoc, show ("\n".data : Str) = ['\n'] from rfl]
  rw [hform]
  rw [splitOnPred_append_sep (fun c => c == '\n') hsep ([] : Str)
    (resetFlagsLine o a d ++ '\n' :: (resetTimerLine o a d ++ '\n' :: ([] : Str)))]
  rw [splitOnPred_append_sep (fun c => c == '\n') hsep (resetFlagsLine o a d)
    (resetTimerLine o a d ++ '\n' :: ([] : Str))]
  rw [splitOnPred_append_sep (fun c => c == '\n') hsep (resetTimerLine o a d) ([] : Str)]
  rw [splitOnPred_no_sep _ (nlFree_chars (nlFree_resetFlagsLine d ho ha))]
  rw [splitOnPred_no_sep _ (nlFree_chars (nlFree_resetTimerLine d ho ha))]
  rfl

/-- C8: `reset` emits exactly two command lines, both guarded by
`timer matches <delay>..`, the first setting the flags counter to 0 and
the second setting the timer counter to -1; and the assembled program
text contains exactly one line adding 1 to the timer counter (the
`increment` line after all statement lines). -/
theorem claim_C8_reset_and_increment (o a body : Str) (d : Nat)
    (ho : nlFree o = true) (ha : nlFree a = true) :
    (splitOnPred (· == '\n') (reset o a d) =
      [[], resetFlagsLine o a d, resetTimerLine o a d, []]) ∧
    (((splitOnPred (· == '\n') (reset o a d)).filter (fun l => ! l.isEmpty)).length = 2) ∧
    (increment o a ∉ splitOnPred (· == '\n') body →
      (splitOnPred (· == '\n') (programContents body o a d)).count (increment o a) = 1) := by
  have hsep : ((fun c : Char => c == '\n') '\n') = true := rfl
  have hres := reset_lines d ho ha
  refine ⟨hres, ?_, ?_⟩
  · rw [hres]
    rfl
  · intro hbody
    have hform : programContents body o a d =
        disclaimer ++ '\n' :: (body ++ '\n' ::
          (reset o a d ++ '\n' :: increment o a)) := by
      simp [programContents, List.append_assoc, show ("\n".data : Str) = ['\n'] from rfl]
    rw [hform]
    rw [splitOnPred_append_sep (fun c => c == '\n') hsep disclaimer
      (body ++ '\n' :: (reset o a d ++ '\n' :: increment o a))]
    rw [splitOnPred_append_sep (fun c => c == '\n') hsep body (reset o a d ++ '\n' :: increment o a)]
    rw [splitOnPred_append_sep (fun c => c == '\n') hsep (reset o a d) (increment o a)]
    rw [splitOnPred_no_sep _ (by decide : ∀ c ∈ disclaimer, ((c == '\n') : Bool) = false)]
    rw [splitOnPred_no_sep _ (nlFree_chars (nlFree_increment ho ha))]
    rw [hres]
    rw [List.count_append, List.count_append, List.count_append]
    have hd : (increment o a).head? = some 's' := rfl
    have hcount1 : ([disclaimer] : List Str).count (increment o a) = 0 := by
      rw [List.count_eq_zero]
      intro hmem
      rcases List.mem_singleton.mp hmem with h1
      have h2 : disclaimer.head? = some '#' := rfl
      rw [h1] at hd
      rw [h2] at hd
      exact absurd (Option.some.inj hd) (by decide)
    have hcount2 : (splitOnPred (· == '\n') body).count (increment o a) = 0 :=
      List.count_eq_zero.mpr hbody
    have hcount3 :
        ([[], resetFlagsLine o a d, resetTimerLine o a d, []] : List Str).count
          (increment o a) = 0 := by
      rw [List.count_eq_zero]
      intro hmem
      rcases List.mem_cons.mp hmem with h1 | hmem
      · rw [h1] at hd; exact absurd hd (by decide)
      rcases List.mem_cons.mp hmem with h1 | hmem
      · have h2 : (resetFlagsLine o a d).head? = some 'e' := rfl
        rw [h1] at hd
        rw [h2] at hd
        exact absurd (Option.some.inj hd) (by decide)
      rcases List.mem_cons.mp hmem with h1 | hmem
      · have h2 : (resetTimerLine o a d).head? = some 'e' := rfl
        rw [h1] at hd
        rw [h2] at hd
        exact absurd (Option.some.inj hd) (by decide)
      rcases List.mem_cons.mp hmem with h1 | hmem
      · rw [h1] at hd; exact absurd hd (by decide)
      · exact absurd hmem (List.not_mem_nil _)
    have hcount4 : ([increment o a] : List Str).count (increment o a) = 1 := by
      simp
    rw [hcount1, hcount2, hcount3, hcount4]

set_option maxRecDepth 8192 in
/-- C8 witness: concrete names `test`/`test`, delay 10, with one
transformation statement line as the body. -/
theorem claim_C8_reset_and_increment_witness :
    (splitOnPred (· == '\n') (reset "test".data "test".data 10) =
      [[], resetFlagsLine "test".data "test".data 10,
        resetTimerLine "test".data "test".data 10, []]) ∧
    ((splitOnPred (· == '\n')
        (programContents
          (transformation "test".data "test".data "e".data 10 20
            "translation: [1f,0f,0f]".data)
          "test".data "test".data 10)).count (increment "test".data "test".data) = 1) := by
  constructor
  · exact (claim_C8_reset_and_increment "test".data "test".data [] 10
      (by decide) (by decide)).1
  · exact (claim_C8_reset_and_increment "test".data "test".data
      (transformation "test".data "test".data "e".data 10 20
        "translation: [1f,0f,0f]".data) 10
      (by decide) (by decide)).2.2 (by decide)

end DiSPA
